import Mathlib

/-!
Verification of the download-task orchestrator of `app.py`
(social-downloader): the extraction attempt chain (`yt_extract_info`),
the QuickTime compatibility predicate (`is_quicktime_compatible`), the
container compatibility resolver (`remux_or_encode`), the download
worker / stall monitor state machine, the progress hook, and the stall
monitor's timeout decision.

Shallow embedding conventions:
- External calls (yt-dlp extraction/download, ffmpeg, ffprobe, browser
  cookie export, the environment) are modelled by oracle structures
  whose fields record the outcome each call would produce; the embedded
  control flow is a line-by-line transcription of the Python source.
- Stateful code is modelled by event traces (lists of events emitted in
  program order) or by explicit step relations.
- Wall-clock time is modelled as integers; the worker/monitor
  interleaving abstracts the clock by letting the monitor's staleness
  comparison go either way (both outcomes are realizable by actual
  clock values, since `last_progress_time` is arbitrary).
-/

namespace SocialDL

/-! ## Task status (`TASKS[...]["status"]` values in app.py) -/

inductive Status where
  | queued
  | running
  | processing
  | done
  | error
deriving DecidableEq, Repr

/-! ## String containment, matching Python's `sub in s` -/

def listInfix (needle hay : List Char) : Bool :=
  hay.tails.any (fun t => needle.isPrefixOf t)

def strContains (s sub : String) : Bool :=
  listInfix sub.toList s.toList

/-! ## `is_quicktime_compatible` (app.py lines 106-124)

`ffprobe_codecs` (lines 89-103) returns either `None` (exception) or a
dict with optional `video` / `audio` codec names; we model that as
`Option CodecPair`.  An empty probe dict behaves identically to
`some ⟨none, none⟩` (both yield `False` in the source). -/

structure CodecPair where
  video : Option String
  sound : Option String
deriving DecidableEq, Repr

def is_quicktime_compatible (codecs : Option CodecPair) : Bool :=
  match codecs with
  | none => false
  | some cp =>
    let v := (cp.video.getD "").toLower
    let a := (cp.sound.getD "").toLower
    if v = "" then
      if strContains a "aac" || strContains a "mp3" || strContains a "mp4a" then true
      else false
    else if strContains v "h264" || strContains v "avc1" || strContains v "avc" then
      if a = "" then true
      else if strContains a "aac" || strContains a "mp3" || strContains a "mp4a" then true
      else false
    else false

/-- Spec-side: "audio codec is in the AAC family (aac/mp4a) or MP3". -/
def aacMp3Family (a : String) : Prop :=
  strContains a "aac" = true ∨ strContains a "mp3" = true ∨ strContains a "mp4a" = true

/-- Spec-side: "video codec is in the H.264/AVC family". -/
def h264Family (v : String) : Prop :=
  strContains v "h264" = true ∨ strContains v "avc1" = true ∨ strContains v "avc" = true

/-! ## Extraction attempt chain (`yt_extract_info`, app.py lines 467-534)

`run_ydl_extract` returns `{"ok": True, "info": info}` on success or
`{"ok": False, "error": str(e)}` on failure; `str(e)` may be the empty
string.  `YdlResult` records both fields (only the relevant one is
meaningful).  The oracle `ExtractEnv` fixes the outcome of every
external call the chain might make. -/

structure YdlResult where
  ok : Bool
  meta : String
  err : String
deriving DecidableEq, Repr

inductive ChainEv where
  /-- `run_ydl_extract` called with a strategy name, the cookiefile put
  into the options, the `allow_unplayable` flag, and its result. -/
  | attempt (strategy : String) (ck : Option String) (allowUnp : Bool) (r : YdlResult)
  /-- a temporary cookie file was created at this path -/
  | createTmp (p : String)
  /-- `os.unlink` of this path -/
  | unlink (p : String)
deriving DecidableEq, Repr

structure ChainOut where
  events : List ChainEv
  result : Except String String
deriving Repr

structure ExtractEnv where
  /-- the `cookiefile` argument (uploaded credential file), if provided -/
  cookiefile : Option String
  /-- the `try_browser_cookies` argument -/
  tryBrowser : Bool
  /-- `BROWSER_COOKIE3_AVAILABLE` -/
  browserAvailable : Bool
  /-- the path `make_cookiefile_from_env()` returns (`none` = no env cookie) -/
  envCookiePath : Option String
  /-- whether `export_browser_cookies_for_domain` succeeds -/
  browserExportOk : Bool
  /-- the temp path used for the browser cookie export -/
  browserTmp : String
  /-- outcome of strategy 1 (no cookies) -/
  r1 : YdlResult
  /-- outcome of strategy 2 (uploaded cookiefile) -/
  r2 : YdlResult
  /-- outcome of strategy 3 (env cookiefile) -/
  renv : YdlResult
  /-- outcome of strategy 4 (browser cookiefile) -/
  r3 : YdlResult
  /-- outcome of strategy 5 (allow unplayable) -/
  r4 : YdlResult
deriving DecidableEq, Repr

/-- Unlink events for the env-created cookiefile (app.py 520-524, 528-532). -/
def unlinkEvs (created : Option String) : List ChainEv :=
  match created with
  | none => []
  | some p => [ChainEv.unlink p]

/-- Step 4 in the source's numbering (comment `# 4) last: allow unplayable
fallback`, lines 514-534): the relaxed-mode attempt.  `created` is
`created_env_cookie`.  Note the top-level error is
`r4.get("error") or r1.get("error")` (Python `or`: empty string falls
through). -/
def chainStep5 (e : ExtractEnv) (created : Option String) (acc : List ChainEv) : ChainOut :=
  let ev := ChainEv.attempt "allow_unplayable" created true e.r4
  if e.r4.ok then
    ⟨acc ++ [ev] ++ unlinkEvs created, Except.ok e.r4.meta⟩
  else
    ⟨acc ++ [ev] ++ unlinkEvs created,
     Except.error (if e.r4.err = "" then e.r1.err else e.r4.err)⟩

/-- Step `# 3) try browser cookies if allowed` (lines 495-512).  The temp
file is created before the export; on export failure it is *not*
unlinked (faithful to the source).  On an attempt, the temp file is
unlinked right after the extraction call, before the success check. -/
def chainStep4 (e : ExtractEnv) (created : Option String) (acc : List ChainEv) : ChainOut :=
  if e.tryBrowser && e.browserAvailable then
    let acc := acc ++ [ChainEv.createTmp e.browserTmp]
    if e.browserExportOk then
      let acc := acc ++ [ChainEv.attempt "browser_cookiefile" (some e.browserTmp) false e.r3,
                         ChainEv.unlink e.browserTmp]
      if e.r3.ok then ⟨acc, Except.ok e.r3.meta⟩
      else chainStep5 e created acc
    else chainStep5 e created acc
  else chainStep5 e created acc

/-- Step `# 2) try env-provided cookies` (lines 485-493).  On success the
chain returns immediately and the created env cookiefile is *not*
unlinked (faithful to the source). -/
def chainStep3 (e : ExtractEnv) (acc : List ChainEv) : ChainOut :=
  match e.envCookiePath with
  | none => chainStep4 e none acc
  | some p =>
    let acc := acc ++ [ChainEv.createTmp p,
                       ChainEv.attempt "env_cookiefile" (some p) false e.renv]
    if e.renv.ok then ⟨acc, Except.ok e.renv.meta⟩
    else chainStep4 e (some p) acc

/-- Step `# 1) try uploaded cookiefile if provided` (lines 477-483). -/
def chainStep2 (e : ExtractEnv) (acc : List ChainEv) : ChainOut :=
  match e.cookiefile with
  | none => chainStep3 e acc
  | some c =>
    let acc := acc ++ [ChainEv.attempt "user_cookiefile" (some c) false e.r2]
    if e.r2.ok then ⟨acc, Except.ok e.r2.meta⟩
    else chainStep3 e acc

/-- `yt_extract_info` (lines 467-534): step `# 0) try with no cookies`,
then the fallback ladder. -/
def yt_extract_info (e : ExtractEnv) : ChainOut :=
  let acc := [ChainEv.attempt "no_cookies" none false e.r1]
  if e.r1.ok then ⟨acc, Except.ok e.r1.meta⟩
  else chainStep2 e acc

/-! ### Views of the chain trace -/

structure AttRec where
  strategy : String
  ck : Option String
  allowUnp : Bool
  r : YdlResult
deriving DecidableEq, Repr

def attemptsOf (evs : List ChainEv) : List AttRec :=
  evs.filterMap (fun ev =>
    match ev with
    | ChainEv.attempt s ck au r => some ⟨s, ck, au, r⟩
    | _ => none)

def namesOf (evs : List ChainEv) : List String :=
  (attemptsOf evs).map (fun a => a.strategy)

def isOkE (r : Except String String) : Bool :=
  match r with
  | Except.ok _ => true
  | Except.error _ => false

def lastOkA (l : List AttRec) : Bool :=
  match l.getLast? with
  | some a => a.r.ok
  | none => false

/-- The success flag of the last recorded attempt (`False` if none). -/
def lastAttOk (evs : List ChainEv) : Bool :=
  lastOkA (attemptsOf evs)

/-- The fixed strategy order of the chain. -/
def strategyOrder : List String :=
  ["no_cookies", "user_cookiefile", "env_cookiefile", "browser_cookiefile", "allow_unplayable"]

/-! ### Trace plumbing lemmas -/

@[simp]
lemma attemptsOf_append (l1 l2 : List ChainEv) :
    attemptsOf (l1 ++ l2) = attemptsOf l1 ++ attemptsOf l2 := by
  simp [attemptsOf]

@[simp]
lemma attemptsOf_unlinkEvs (c : Option String) : attemptsOf (unlinkEvs c) = [] := by
  cases c <;> rfl

@[simp]
lemma attemptsOf_nil : attemptsOf [] = [] := rfl

@[simp]
lemma attemptsOf_cons_att (s : String) (ck : Option String) (au : Bool) (r : YdlResult)
    (l : List ChainEv) :
    attemptsOf (ChainEv.attempt s ck au r :: l) = ⟨s, ck, au, r⟩ :: attemptsOf l := rfl

@[simp]
lemma attemptsOf_cons_createTmp (p : String) (l : List ChainEv) :
    attemptsOf (ChainEv.createTmp p :: l) = attemptsOf l := rfl

@[simp]
lemma attemptsOf_cons_unlink (p : String) (l : List ChainEv) :
    attemptsOf (ChainEv.unlink p :: l) = attemptsOf l := rfl

@[simp]
lemma lastOkA_nil : lastOkA [] = false := rfl

@[simp]
lemma lastOkA_singleton (a : AttRec) : lastOkA [a] = a.r.ok := rfl

@[simp]
lemma lastOkA_cons_cons (a b : AttRec) (l : List AttRec) :
    lastOkA (a :: b :: l) = lastOkA (b :: l) := by
  simp [lastOkA]

lemma lastOkA_cons_ne (a : AttRec) (l : List AttRec) (h : l ≠ []) :
    lastOkA (a :: l) = lastOkA l := by
  cases l with
  | nil => exact absurd rfl h
  | cons b t => simp [lastOkA]

/-- Step 5 appends exactly one attempt (the relaxed one) plus cleanup
events, and its result is successful iff `r4` is. -/
lemma chainStep5_events (e : ExtractEnv) (created : Option String) (acc : List ChainEv) :
    (chainStep5 e created acc).events
      = acc ++ ([ChainEv.attempt "allow_unplayable" created true e.r4] ++ unlinkEvs created) := by
  cases h : e.r4.ok <;> simp [chainStep5, h]

lemma chainStep5_isOk (e : ExtractEnv) (created : Option String) (acc : List ChainEv) :
    isOkE (chainStep5 e created acc).result = e.r4.ok := by
  cases h : e.r4.ok <;> simp [chainStep5, h, isOkE]

lemma chainStep4_tail (e : ExtractEnv) (created : Option String) (acc : List ChainEv) :
    ∃ tl, (chainStep4 e created acc).events = acc ++ tl
      ∧ attemptsOf tl ≠ []
      ∧ List.Sublist ((attemptsOf tl).map AttRec.strategy) ["browser_cookiefile", "allow_unplayable"]
      ∧ lastOkA (attemptsOf tl) = isOkE (chainStep4 e created acc).result := by
  cases hb : (e.tryBrowser && e.browserAvailable) with
  | false =>
    refine ⟨[ChainEv.attempt "allow_unplayable" created true e.r4] ++ unlinkEvs created,
      ?_, ?_, ?_, ?_⟩
    · simp [chainStep4, hb, chainStep5_events]
    · simp
    · have h : (attemptsOf ([ChainEv.attempt "allow_unplayable" created true e.r4] ++
          unlinkEvs created)).map AttRec.strategy = ["allow_unplayable"] := by simp
      rw [h]; decide
    · simp [chainStep4, hb, chainStep5_isOk]
  | true =>
    cases hbe : e.browserExportOk with
    | false =>
      refine ⟨[ChainEv.createTmp e.browserTmp] ++
        ([ChainEv.attempt "allow_unplayable" created true e.r4] ++ unlinkEvs created),
        ?_, ?_, ?_, ?_⟩
      · simp [chainStep4, hb, hbe, chainStep5_events]
      · simp
      · have h : (attemptsOf ([ChainEv.createTmp e.browserTmp] ++
            ([ChainEv.attempt "allow_unplayable" created true e.r4] ++
              unlinkEvs created))).map AttRec.strategy = ["allow_unplayable"] := by simp
        rw [h]; decide
      · simp [chainStep4, hb, hbe, chainStep5_isOk]
    | true =>
      cases h3 : e.r3.ok with
      | true =>
        refine ⟨[ChainEv.createTmp e.browserTmp,
                 ChainEv.attempt "browser_cookiefile" (some e.browserTmp) false e.r3,
                 ChainEv.unlink e.browserTmp], ?_, ?_, ?_, ?_⟩
        · simp [chainStep4, hb, hbe, h3]
        · simp
        · have h : (attemptsOf [ChainEv.createTmp e.browserTmp,
              ChainEv.attempt "browser_cookiefile" (some e.browserTmp) false e.r3,
              ChainEv.unlink e.browserTmp]).map AttRec.strategy = ["browser_cookiefile"] := by simp
          rw [h]; decide
        · simp [chainStep4, hb, hbe, h3, isOkE]
      | false =>
        refine ⟨[ChainEv.createTmp e.browserTmp,
                 ChainEv.attempt "browser_cookiefile" (some e.browserTmp) false e.r3,
                 ChainEv.unlink e.browserTmp] ++
          ([ChainEv.attempt "allow_unplayable" created true e.r4] ++ unlinkEvs created),
          ?_, ?_, ?_, ?_⟩
        · simp [chainStep4, hb, hbe, h3, chainStep5_events]
        · simp
        · have h : (attemptsOf ([ChainEv.createTmp e.browserTmp,
              ChainEv.attempt "browser_cookiefile" (some e.browserTmp) false e.r3,
              ChainEv.unlink e.browserTmp] ++
              ([ChainEv.attempt "allow_unplayable" created true e.r4] ++
                unlinkEvs created))).map AttRec.strategy
              = ["browser_cookiefile", "allow_unplayable"] := by simp
          rw [h]
        · simp [chainStep4, hb, hbe, h3, chainStep5_isOk]

lemma chainStep3_tail (e : ExtractEnv) (acc : List ChainEv) :
    ∃ tl, (chainStep3 e acc).events = acc ++ tl
      ∧ attemptsOf tl ≠ []
      ∧ List.Sublist ((attemptsOf tl).map AttRec.strategy)
          ["env_cookiefile", "browser_cookiefile", "allow_unplayable"]
      ∧ lastOkA (attemptsOf tl) = isOkE (chainStep3 e acc).result := by
  cases hec : e.envCookiePath with
  | none =>
    obtain ⟨tl, he, h1, h2, h3⟩ := chainStep4_tail e none acc
    exact ⟨tl, by simpa [chainStep3, hec] using he, h1,
      h2.trans (by decide), by simpa [chainStep3, hec] using h3⟩
  | some p =>
    cases henv : e.renv.ok with
    | true =>
      refine ⟨[ChainEv.createTmp p, ChainEv.attempt "env_cookiefile" (some p) false e.renv],
        ?_, ?_, ?_, ?_⟩ <;>
        simp [chainStep3, hec, henv, isOkE]
    | false =>
      obtain ⟨tl, he, h1, h2, h3⟩ :=
        chainStep4_tail e (some p)
          (acc ++ [ChainEv.createTmp p, ChainEv.attempt "env_cookiefile" (some p) false e.renv])
      refine ⟨[ChainEv.createTmp p, ChainEv.attempt "env_cookiefile" (some p) false e.renv] ++ tl,
        ?_, ?_, ?_, ?_⟩
      · simp only [chainStep3, hec, henv]
        simp only [Bool.false_eq_true, if_false]
        rw [he]; simp
      · simp
      · have : (attemptsOf ([ChainEv.createTmp p,
          ChainEv.attempt "env_cookiefile" (some p) false e.renv] ++ tl)).map AttRec.strategy
            = "env_cookiefile" :: (attemptsOf tl).map AttRec.strategy := by
          simp
        rw [this]
        exact List.Sublist.cons₂ _ (h2.trans (by decide))
      · have hcast : (chainStep3 e acc).result = (chainStep4 e (some p)
          (acc ++ [ChainEv.createTmp p,
            ChainEv.attempt "env_cookiefile" (some p) false e.renv])).result := by
          simp [chainStep3, hec, henv]
        rw [hcast, ← h3, attemptsOf_append]
        rw [show attemptsOf [ChainEv.createTmp p,
          ChainEv.attempt "env_cookiefile" (some p) false e.renv]
            = [⟨"env_cookiefile", some p, false, e.renv⟩] from rfl]
        exact lastOkA_cons_ne _ _ h1

lemma chainStep2_tail (e : ExtractEnv) (acc : List ChainEv) :
    ∃ tl, (chainStep2 e acc).events = acc ++ tl
      ∧ attemptsOf tl ≠ []
      ∧ List.Sublist ((attemptsOf tl).map AttRec.strategy)
          ["user_cookiefile", "env_cookiefile", "browser_cookiefile", "allow_unplayable"]
      ∧ lastOkA (attemptsOf tl) = isOkE (chainStep2 e acc).result := by
  cases hcf : e.cookiefile with
  | none =>
    obtain ⟨tl, he, h1, h2, h3⟩ := chainStep3_tail e acc
    exact ⟨tl, by simpa [chainStep2, hcf] using he, h1,
      h2.trans (by decide), by simpa [chainStep2, hcf] using h3⟩
  | some c =>
    cases h2ok : e.r2.ok with
    | true =>
      refine ⟨[ChainEv.attempt "user_cookiefile" (some c) false e.r2], ?_, ?_, ?_, ?_⟩ <;>
        simp [chainStep2, hcf, h2ok, isOkE]
    | false =>
      obtain ⟨tl, he, h1, h2, h3⟩ :=
        chainStep3_tail e (acc ++ [ChainEv.attempt "user_cookiefile" (some c) false e.r2])
      refine ⟨[ChainEv.attempt "user_cookiefile" (some c) false e.r2] ++ tl, ?_, ?_, ?_, ?_⟩
      · simp only [chainStep2, hcf, h2ok]
        simp only [Bool.false_eq_true, if_false]
        rw [he]; simp
      · simp
      · have : (attemptsOf ([ChainEv.attempt "user_cookiefile" (some c) false e.r2] ++ tl)).map
            AttRec.strategy = "user_cookiefile" :: (attemptsOf tl).map AttRec.strategy := by
          simp
        rw [this]
        exact List.Sublist.cons₂ _ (h2.trans (by decide))
      · have hcast : (chainStep2 e acc).result = (chainStep3 e
          (acc ++ [ChainEv.attempt "user_cookiefile" (some c) false e.r2])).result := by
          simp [chainStep2, hcf, h2ok]
        rw [hcast, ← h3, attemptsOf_append]
        rw [show attemptsOf [ChainEv.attempt "user_cookiefile" (some c) false e.r2]
            = [⟨"user_cookiefile", some c, false, e.r2⟩] from rfl]
        exact lastOkA_cons_ne _ _ h1

/-- C2: the audit trail of the extraction attempt chain is non-empty,
its entries appear in the fixed strategy order (each strategy at most
once, no reordering), it starts with the no-cookies strategy, and the
last entry's `ok` flag is `true` exactly when the chain returns
metadata rather than an error. -/
theorem chain_audit_trail (e : ExtractEnv) :
    1 ≤ (attemptsOf (yt_extract_info e).events).length
    ∧ List.Sublist (namesOf (yt_extract_info e).events) strategyOrder
    ∧ (namesOf (yt_extract_info e).events).head? = some "no_cookies"
    ∧ lastAttOk (yt_extract_info e).events = isOkE (yt_extract_info e).result := by
  cases h1 : e.r1.ok with
  | true =>
    refine ⟨?_, ?_, ?_, ?_⟩
    · simp [yt_extract_info, h1]
    · have h : namesOf (yt_extract_info e).events = ["no_cookies"] := by
        simp [yt_extract_info, h1, namesOf]
      rw [h]; decide
    · simp [yt_extract_info, h1, namesOf]
    · simp [yt_extract_info, h1, namesOf, lastAttOk, isOkE]
  | false =>
    have hev : (yt_extract_info e).events
        = (chainStep2 e [ChainEv.attempt "no_cookies" none false e.r1]).events := by
      simp [yt_extract_info, h1]
    have hres : (yt_extract_info e).result
        = (chainStep2 e [ChainEv.attempt "no_cookies" none false e.r1]).result := by
      simp [yt_extract_info, h1]
    obtain ⟨tl, he, hne, hsub, hlast⟩ :=
      chainStep2_tail e [ChainEv.attempt "no_cookies" none false e.r1]
    refine ⟨?_, ?_, ?_, ?_⟩
    · rw [hev, he]; simp
    · rw [hev, he]
      have h : namesOf ([ChainEv.attempt "no_cookies" none false e.r1] ++ tl)
          = "no_cookies" :: (attemptsOf tl).map AttRec.strategy := by
        simp [namesOf]
      rw [h]
      simp only [strategyOrder]
      exact List.Sublist.cons₂ _ hsub
    · rw [hev, he]; simp [namesOf]
    · rw [lastAttOk, hev, he, hres, ← hlast]
      have h : attemptsOf ([ChainEv.attempt "no_cookies" none false e.r1] ++ tl)
          = ⟨"no_cookies", none, false, e.r1⟩ :: attemptsOf tl := by simp
      rw [h]
      exact lastOkA_cons_ne _ _ hne

/-! ## C5: top-level error selection on chain exhaustion -/

lemma chainStep5_result_error (e : ExtractEnv) (created : Option String)
    (acc : List ChainEv) (err : String) :
    (chainStep5 e created acc).result = Except.error err →
      err = (if e.r4.err = "" then e.r1.err else e.r4.err) := by
  intro hcon
  cases h : e.r4.ok with
  | true => simp [chainStep5, h] at hcon
  | false =>
    simp only [chainStep5, h, Bool.false_eq_true, if_false, Except.error.injEq] at hcon
    exact hcon.symm

lemma chainStep4_result_error (e : ExtractEnv) (created : Option String)
    (acc : List ChainEv) (err : String) :
    (chainStep4 e created acc).result = Except.error err →
      err = (if e.r4.err = "" then e.r1.err else e.r4.err) := by
  intro hcon
  cases hb : (e.tryBrowser && e.browserAvailable) with
  | false => exact chainStep5_result_error e created _ err (by simpa [chainStep4, hb] using hcon)
  | true =>
    cases hbe : e.browserExportOk with
    | false =>
      exact chainStep5_result_error e created _ err (by simpa [chainStep4, hb, hbe] using hcon)
    | true =>
      cases h3 : e.r3.ok with
      | true => simp [chainStep4, hb, hbe, h3] at hcon
      | false =>
        exact chainStep5_result_error e created _ err
          (by simpa [chainStep4, hb, hbe, h3] using hcon)

lemma chainStep3_result_error (e : ExtractEnv) (acc : List ChainEv) (err : String) :
    (chainStep3 e acc).result = Except.error err →
      err = (if e.r4.err = "" then e.r1.err else e.r4.err) := by
  intro hcon
  cases hec : e.envCookiePath with
  | none => exact chainStep4_result_error e none _ err (by simpa [chainStep3, hec] using hcon)
  | some p =>
    cases henv : e.renv.ok with
    | true => simp [chainStep3, hec, henv] at hcon
    | false =>
      exact chainStep4_result_error e (some p) _ err
        (by simpa [chainStep3, hec, henv] using hcon)

lemma chainStep2_result_error (e : ExtractEnv) (acc : List ChainEv) (err : String) :
    (chainStep2 e acc).result = Except.error err →
      err = (if e.r4.err = "" then e.r1.err else e.r4.err) := by
  intro hcon
  cases hcf : e.cookiefile with
  | none => exact chainStep3_result_error e _ err (by simpa [chainStep2, hcf] using hcon)
  | some c =>
    cases h2 : e.r2.ok with
    | true => simp [chainStep2, hcf, h2] at hcon
    | false => exact chainStep3_result_error e _ err (by simpa [chainStep2, hcf, h2] using hcon)

/-- C5: when the chain fails, the top-level error is the strategy-5
(relaxed) error when it is present (non-empty), otherwise the
strategy-1 (no-credentials) error. -/
theorem chain_error_selection (e : ExtractEnv) (err : String) :
    (yt_extract_info e).result = Except.error err →
      err = (if e.r4.err = "" then e.r1.err else e.r4.err) := by
  intro hcon
  cases h1 : e.r1.ok with
  | true => simp [yt_extract_info, h1] at hcon
  | false => exact chainStep2_result_error e _ err (by simpa [yt_extract_info, h1] using hcon)

def failAll : YdlResult := ⟨false, "", "boom"⟩

/-- A concrete all-fail environment exercising `chain_error_selection`. -/
def envC5 : ExtractEnv :=
  ⟨none, false, false, none, false, "btmp.txt",
   ⟨false, "", "first boom"⟩, failAll, failAll, failAll, ⟨false, "", "relaxed boom"⟩⟩

theorem chain_error_selection_witness :
    (yt_extract_info envC5).result = Except.error "relaxed boom"
    ∧ "relaxed boom" = (if envC5.r4.err = "" then envC5.r1.err else envC5.r4.err) :=
  ⟨rfl, chain_error_selection envC5 "relaxed boom" rfl⟩

/-! ## C7: credential used by the relaxed (strategy 5) attempt -/

lemma chainStep5_mem_unp (e : ExtractEnv) (created : Option String) (acc : List ChainEv)
    (ck : Option String) (au : Bool) (r : YdlResult) :
    ChainEv.attempt "allow_unplayable" ck au r ∈ (chainStep5 e created acc).events →
      ChainEv.attempt "allow_unplayable" ck au r ∈ acc ∨ ck = created := by
  intro hm
  rw [chainStep5_events] at hm
  rcases List.mem_append.mp hm with h | h
  · exact Or.inl h
  · rcases List.mem_append.mp h with h | h
    · right
      simp only [List.mem_singleton, ChainEv.attempt.injEq] at h
      exact h.2.1
    · cases created with
      | none => simp [unlinkEvs] at h
      | some p => simp [unlinkEvs] at h

lemma chainStep4_mem_unp (e : ExtractEnv) (created : Option String) (acc : List ChainEv)
    (ck : Option String) (au : Bool) (r : YdlResult) :
    ChainEv.attempt "allow_unplayable" ck au r ∈ (chainStep4 e created acc).events →
      ChainEv.attempt "allow_unplayable" ck au r ∈ acc ∨ ck = created := by
  intro hm
  cases hb : (e.tryBrowser && e.browserAvailable) with
  | false => exact chainStep5_mem_unp e created acc ck au r (by simpa [chainStep4, hb] using hm)
  | true =>
    cases hbe : e.browserExportOk with
    | false =>
      rcases chainStep5_mem_unp e created (acc ++ [ChainEv.createTmp e.browserTmp]) ck au r
          (by simpa [chainStep4, hb, hbe] using hm) with h | h
      · rcases List.mem_append.mp h with h | h
        · exact Or.inl h
        · simp at h
      · exact Or.inr h
    | true =>
      cases h3 : e.r3.ok with
      | true =>
        have h : ChainEv.attempt "allow_unplayable" ck au r ∈
            acc ++ [ChainEv.createTmp e.browserTmp] ++
              [ChainEv.attempt "browser_cookiefile" (some e.browserTmp) false e.r3,
               ChainEv.unlink e.browserTmp] := by
          simpa [chainStep4, hb, hbe, h3] using hm
        rcases List.mem_append.mp h with h | h
        · rcases List.mem_append.mp h with h | h
          · exact Or.inl h
          · simp at h
        · simp at h
      | false =>
        rcases chainStep5_mem_unp e created
            (acc ++ [ChainEv.createTmp e.browserTmp] ++
              [ChainEv.attempt "browser_cookiefile" (some e.browserTmp) false e.r3,
               ChainEv.unlink e.browserTmp]) ck au r
            (by simpa [chainStep4, hb, hbe, h3] using hm) with h | h
        · rcases List.mem_append.mp h with h | h
          · rcases List.mem_append.mp h with h | h
            · exact Or.inl h
            · simp at h
          · simp at h
        · exact Or.inr h

lemma chainStep3_mem_unp (e : ExtractEnv) (acc : List ChainEv)
    (ck : Option String) (au : Bool) (r : YdlResult) :
    ChainEv.attempt "allow_unplayable" ck au r ∈ (chainStep3 e acc).events →
      ChainEv.attempt "allow_unplayable" ck au r ∈ acc ∨ ck = e.envCookiePath := by
  intro hm
  cases hec : e.envCookiePath with
  | none => exact chainStep4_mem_unp e none acc ck au r (by simpa [chainStep3, hec] using hm)
  | some p =>
    cases henv : e.renv.ok with
    | true =>
      have h : ChainEv.attempt "allow_unplayable" ck au r ∈
          acc ++ [ChainEv.createTmp p, ChainEv.attempt "env_cookiefile" (some p) false e.renv] := by
        simpa [chainStep3, hec, henv] using hm
      rcases List.mem_append.mp h with h | h
      · exact Or.inl h
      · simp at h
    | false =>
      rcases chainStep4_mem_unp e (some p)
          (acc ++ [ChainEv.createTmp p, ChainEv.attempt "env_cookiefile" (some p) false e.renv])
          ck au r (by simpa [chainStep3, hec, henv] using hm) with h | h
      · rcases List.mem_append.mp h with h | h
        · exact Or.inl h
        · simp at h
      · exact Or.inr h

lemma chainStep2_mem_unp (e : ExtractEnv) (acc : List ChainEv)
    (ck : Option String) (au : Bool) (r : YdlResult) :
    ChainEv.attempt "allow_unplayable" ck au r ∈ (chainStep2 e acc).events →
      ChainEv.attempt "allow_unplayable" ck au r ∈ acc ∨ ck = e.envCookiePath := by
  intro hm
  cases hcf : e.cookiefile with
  | none => exact chainStep3_mem_unp e acc ck au r (by simpa [chainStep2, hcf] using hm)
  | some c =>
    cases h2 : e.r2.ok with
    | true =>
      have h : ChainEv.attempt "allow_unplayable" ck au r ∈
          acc ++ [ChainEv.attempt "user_cookiefile" (some c) false e.r2] := by
        simpa [chainStep2, hcf, h2] using hm
      rcases List.mem_append.mp h with h | h
      · exact Or.inl h
      · simp at h
    | false =>
      rcases chainStep3_mem_unp e
          (acc ++ [ChainEv.attempt "user_cookiefile" (some c) false e.r2]) ck au r
          (by simpa [chainStep2, hcf, h2] using hm) with h | h
      · rcases List.mem_append.mp h with h | h
        · exact Or.inl h
        · simp at h
      · exact Or.inr h

/-- C7 amended: the relaxed (strategy 5) attempt always runs with the
chain-created environment-derived cookie file when one exists, and with
no credential otherwise; the caller-uploaded file is never used for it. -/
theorem relaxed_attempt_credential (e : ExtractEnv) (ck : Option String) (au : Bool)
    (r : YdlResult) :
    ChainEv.attempt "allow_unplayable" ck au r ∈ (yt_extract_info e).events →
      ck = e.envCookiePath := by
  intro hm
  cases h1 : e.r1.ok with
  | true =>
    have h : ChainEv.attempt "allow_unplayable" ck au r ∈
        [ChainEv.attempt "no_cookies" none false e.r1] := by
      simpa [yt_extract_info, h1] using hm
    simp at h
  | false =>
    rcases chainStep2_mem_unp e [ChainEv.attempt "no_cookies" none false e.r1] ck au r
        (by simpa [yt_extract_info, h1] using hm) with h | h
    · simp at h
    · exact h

/-- The best available credential in the sense of the claim: the
caller-uploaded file when provided, otherwise the env-derived one. -/
def bestCredential (e : ExtractEnv) : Option String :=
  match e.cookiefile with
  | some c => some c
  | none => e.envCookiePath

/-- The claim as stated: strategy 5 re-attempts with the best available
credential. -/
def relaxedUsesBestCredential (e : ExtractEnv) : Prop :=
  ∀ ck au r, ChainEv.attempt "allow_unplayable" ck au r ∈ (yt_extract_info e).events →
    ck = bestCredential e

def failAll2 : YdlResult := ⟨false, "", "nope"⟩

def envC7 : ExtractEnv :=
  ⟨some "uploaded.txt", false, false, none, false, "btmp.txt",
   failAll2, failAll2, failAll2, failAll2, failAll2⟩

/-- C7 counterexample: an uploaded credential file is provided and no
env cookie exists; every strategy fails; the relaxed attempt runs with
*no* cookiefile instead of the uploaded one. -/
theorem relaxed_credential_refuted : ¬ relaxedUsesBestCredential envC7 := by
  intro h
  have hm : ChainEv.attempt "allow_unplayable" none true envC7.r4
      ∈ (yt_extract_info envC7).events := by decide
  have hc := h none true envC7.r4 hm
  simp [bestCredential, envC7] at hc

def envC7w : ExtractEnv :=
  ⟨none, false, false, some "envck.txt", false, "btmp.txt",
   failAll2, failAll2, failAll2, failAll2, failAll2⟩

theorem relaxed_attempt_credential_witness :
    (some "envck.txt" : Option String) = envC7w.envCookiePath :=
  relaxed_attempt_credential envC7w (some "envck.txt") true envC7w.r4 (by decide)

/-! ## C8: temporary credential file cleanup

`createdPaths` collects the temp files the chain itself created;
`immediateCleanupFrom` checks the claim as stated: every attempt using
a chain-created temp credential file is immediately followed by its
unlink. -/

def createdPaths : List ChainEv → List String
  | [] => []
  | ChainEv.createTmp p :: rest => p :: createdPaths rest
  | _ :: rest => createdPaths rest

def immediateCleanupFrom (created : List String) : List ChainEv → Bool
  | [] => true
  | ChainEv.attempt _ ck _ _ :: rest =>
      (match ck with
       | some p =>
         if created.contains p then
           match rest with
           | ChainEv.unlink q :: _ => q == p
           | _ => false
         else true
       | none => true)
      && immediateCleanupFrom created rest
  | _ :: rest => immediateCleanupFrom created rest

/-- The claim as stated: every temporary credential file created by the
chain for one strategy attempt is deleted immediately after that
attempt. -/
def tempCleanupImmediate (e : ExtractEnv) : Prop :=
  immediateCleanupFrom (createdPaths (yt_extract_info e).events) (yt_extract_info e).events = true

def envC8 : ExtractEnv :=
  ⟨none, false, false, some "envck.txt", false, "btmp.txt",
   failAll2, failAll2, ⟨true, "envmeta", ""⟩, failAll2, failAll2⟩

/-- C8 counterexample: the chain creates the env-derived cookie file,
the env-cookie attempt succeeds, and the chain returns with no unlink
of that file at all — deletion is not immediate and is in fact never
performed on this path. -/
theorem temp_cleanup_refuted : ¬ tempCleanupImmediate envC8 := by
  unfold tempCleanupImmediate
  decide

/-! Amended-claim machinery: the browser-exported temp file *is*
unlinked immediately after its attempt; the env-derived file is only
unlinked on paths that reach strategy 5. -/

def isBrowserAtt : ChainEv → Bool
  | ChainEv.attempt s _ _ _ => s == "browser_cookiefile"
  | _ => false

def ckOf : ChainEv → Option String
  | ChainEv.attempt _ ck _ _ => ck
  | _ => none

/-- The per-event check: a browser-cookie attempt must be immediately
followed by the unlink of its cookiefile. -/
def attCleanOk (ev : ChainEv) (rest : List ChainEv) : Bool :=
  if isBrowserAtt ev then
    match ckOf ev, rest with
    | some p, ChainEv.unlink q :: _ => q == p
    | _, _ => false
  else true

def browserNext : List ChainEv → Bool
  | [] => true
  | ev :: rest => attCleanOk ev rest && browserNext rest

def safeTrace (l : List ChainEv) : Prop :=
  browserNext l = true ∧ ∀ ev, l.getLast? = some ev → isBrowserAtt ev = false

lemma browserNext_cons (ev : ChainEv) (rest : List ChainEv) :
    browserNext (ev :: rest) = (attCleanOk ev rest && browserNext rest) := rfl

lemma attCleanOk_false (ev : ChainEv) (rest : List ChainEv) (h : isBrowserAtt ev = false) :
    attCleanOk ev rest = true := by simp [attCleanOk, h]

lemma attCleanOk_head (ev ev2 : ChainEv) (r1 r2 : List ChainEv) :
    attCleanOk ev (ev2 :: r1) = attCleanOk ev (ev2 :: r2) := by
  cases hba : isBrowserAtt ev
  · simp [attCleanOk, hba]
  · cases hck : ckOf ev
    · simp [attCleanOk, hba, hck]
    · cases ev2 <;> simp [attCleanOk, hba, hck]

lemma browserNext_append2 (l2 : List ChainEv) (h2 : browserNext l2 = true) :
    ∀ l1 : List ChainEv, safeTrace l1 → browserNext (l1 ++ l2) = true := by
  intro l1
  induction l1 with
  | nil => intro _; simpa using h2
  | cons ev rest ih =>
    rintro ⟨hbn, hlast⟩
    rw [browserNext_cons, Bool.and_eq_true] at hbn
    obtain ⟨hcond, hrest⟩ := hbn
    cases rest with
    | nil =>
      have hb : isBrowserAtt ev = false := hlast ev (by simp)
      show browserNext ((ev :: []) ++ l2) = true
      simp only [List.cons_append, List.nil_append]
      rw [browserNext_cons, Bool.and_eq_true]
      exact ⟨attCleanOk_false ev l2 hb, h2⟩
    | cons ev2 rest2 =>
      have hsafe : safeTrace (ev2 :: rest2) :=
        ⟨hrest, fun x hx => hlast x (by rw [List.getLast?_cons_cons]; exact hx)⟩
      have hr := ih hsafe
      simp only [List.cons_append] at hr ⊢
      rw [browserNext_cons, Bool.and_eq_true]
      refine ⟨?_, hr⟩
      rw [attCleanOk_head ev ev2 (rest2 ++ l2) rest2]
      exact hcond

lemma safeTrace_append (l1 l2 : List ChainEv) (h1 : safeTrace l1) (h2 : safeTrace l2)
    (hne : l2 ≠ []) : safeTrace (l1 ++ l2) := by
  refine ⟨browserNext_append2 l2 h2.1 l1 h1, ?_⟩
  intro ev hev
  rw [List.getLast?_append_of_ne_nil l1 hne] at hev
  exact h2.2 ev hev

lemma browserNext_tail5 (created : Option String) (r : YdlResult) :
    browserNext ([ChainEv.attempt "allow_unplayable" created true r] ++ unlinkEvs created)
      = true := by
  cases created <;> rfl

lemma chainStep5_bn (e : ExtractEnv) (created : Option String) (acc : List ChainEv)
    (h : safeTrace acc) : browserNext (chainStep5 e created acc).events = true := by
  rw [chainStep5_events]
  exact browserNext_append2 _ (browserNext_tail5 created e.r4) acc h

lemma chainStep4_bn (e : ExtractEnv) (created : Option String) (acc : List ChainEv)
    (h : safeTrace acc) : browserNext (chainStep4 e created acc).events = true := by
  cases hb : (e.tryBrowser && e.browserAvailable) with
  | false =>
    have hstep : chainStep4 e created acc = chainStep5 e created acc := by
      simp [chainStep4, hb]
    rw [hstep]
    exact chainStep5_bn e created acc h
  | true =>
    cases hbe : e.browserExportOk with
    | false =>
      have hstep : chainStep4 e created acc
          = chainStep5 e created (acc ++ [ChainEv.createTmp e.browserTmp]) := by
        simp [chainStep4, hb, hbe]
      rw [hstep]
      refine chainStep5_bn e created _ (safeTrace_append _ _ h ⟨rfl, ?_⟩ (by simp))
      intro ev hev
      simp at hev
      subst hev
      rfl
    | true =>
      have hseg : safeTrace ([ChainEv.createTmp e.browserTmp] ++
          [ChainEv.attempt "browser_cookiefile" (some e.browserTmp) false e.r3,
           ChainEv.unlink e.browserTmp]) := by
        constructor
        · simp only [List.cons_append, List.nil_append]
          rw [browserNext_cons, browserNext_cons, browserNext_cons, Bool.and_eq_true,
            Bool.and_eq_true, Bool.and_eq_true]
          refine ⟨rfl, ⟨?_, ⟨rfl, rfl⟩⟩⟩
          show attCleanOk (ChainEv.attempt "browser_cookiefile" (some e.browserTmp) false e.r3)
            [ChainEv.unlink e.browserTmp] = true
          simp [attCleanOk, isBrowserAtt, ckOf]
        · intro ev hev
          simp at hev
          subst hev
          rfl
      cases h3 : e.r3.ok with
      | true =>
        have hstep : (chainStep4 e created acc).events
            = acc ++ ([ChainEv.createTmp e.browserTmp] ++
              [ChainEv.attempt "browser_cookiefile" (some e.browserTmp) false e.r3,
               ChainEv.unlink e.browserTmp]) := by
          simp [chainStep4, hb, hbe, h3]
        rw [hstep]
        exact browserNext_append2 _ hseg.1 acc h
      | false =>
        have hstep : chainStep4 e created acc
            = chainStep5 e created (acc ++ ([ChainEv.createTmp e.browserTmp] ++
              [ChainEv.attempt "browser_cookiefile" (some e.browserTmp) false e.r3,
               ChainEv.unlink e.browserTmp])) := by
          simp [chainStep4, hb, hbe, h3]
        rw [hstep]
        exact chainStep5_bn e created _ (safeTrace_append _ _ h hseg (by simp))

lemma chainStep3_bn (e : ExtractEnv) (acc : List ChainEv) (h : safeTrace acc) :
    browserNext (chainStep3 e acc).events = true := by
  cases hec : e.envCookiePath with
  | none =>
    have hstep : chainStep3 e acc = chainStep4 e none acc := by simp [chainStep3, hec]
    rw [hstep]
    exact chainStep4_bn e none acc h
  | some p =>
    have hseg : safeTrace [ChainEv.createTmp p,
        ChainEv.attempt "env_cookiefile" (some p) false e.renv] := by
      constructor
      · rfl
      · intro ev hev
        simp at hev
        subst hev
        rfl
    cases henv : e.renv.ok with
    | true =>
      have hstep : (chainStep3 e acc).events
          = acc ++ [ChainEv.createTmp p,
              ChainEv.attempt "env_cookiefile" (some p) false e.renv] := by
        simp [chainStep3, hec, henv]
      rw [hstep]
      exact browserNext_append2 _ hseg.1 acc h
    | false =>
      have hstep : chainStep3 e acc = chainStep4 e (some p)
          (acc ++ [ChainEv.createTmp p,
            ChainEv.attempt "env_cookiefile" (some p) false e.renv]) := by
        simp [chainStep3, hec, henv]
      rw [hstep]
      exact chainStep4_bn e (some p) _ (safeTrace_append _ _ h hseg (by simp))

lemma chainStep2_bn (e : ExtractEnv) (acc : List ChainEv) (h : safeTrace acc) :
    browserNext (chainStep2 e acc).events = true := by
  cases hcf : e.cookiefile with
  | none =>
    have hstep : chainStep2 e acc = chainStep3 e acc := by simp [chainStep2, hcf]
    rw [hstep]
    exact chainStep3_bn e acc h
  | some c =>
    have hseg : safeTrace [ChainEv.attempt "user_cookiefile" (some c) false e.r2] := by
      constructor
      · rfl
      · intro ev hev
        simp at hev
        subst hev
        rfl
    cases h2 : e.r2.ok with
    | true =>
      have hstep : (chainStep2 e acc).events
          = acc ++ [ChainEv.attempt "user_cookiefile" (some c) false e.r2] := by
        simp [chainStep2, hcf, h2]
      rw [hstep]
      exact browserNext_append2 _ hseg.1 acc h
    | false =>
      have hstep : chainStep2 e acc = chainStep3 e
          (acc ++ [ChainEv.attempt "user_cookiefile" (some c) false e.r2]) := by
        simp [chainStep2, hcf, h2]
      rw [hstep]
      exact chainStep3_bn e _ (safeTrace_append _ _ h hseg (by simp))

lemma chainStep5_unlink_mem (e : ExtractEnv) (p : String) (acc : List ChainEv) :
    ChainEv.unlink p ∈ (chainStep5 e (some p) acc).events := by
  rw [chainStep5_events]
  simp [unlinkEvs]

lemma chainStep4_unlink_mem (e : ExtractEnv) (p : String) (acc : List ChainEv)
    (hb4 : (e.tryBrowser && e.browserAvailable && e.browserExportOk && e.r3.ok) = false) :
    ChainEv.unlink p ∈ (chainStep4 e (some p) acc).events := by
  cases hb : (e.tryBrowser && e.browserAvailable) with
  | false =>
    have hstep : chainStep4 e (some p) acc = chainStep5 e (some p) acc := by
      simp [chainStep4, hb]
    rw [hstep]
    exact chainStep5_unlink_mem e p acc
  | true =>
    cases hbe : e.browserExportOk with
    | false =>
      have hstep : chainStep4 e (some p) acc
          = chainStep5 e (some p) (acc ++ [ChainEv.createTmp e.browserTmp]) := by
        simp [chainStep4, hb, hbe]
      rw [hstep]
      exact chainStep5_unlink_mem e p _
    | true =>
      have h3 : e.r3.ok = false := by
        simpa [hb, hbe] using hb4
      have hstep : chainStep4 e (some p) acc
          = chainStep5 e (some p) (acc ++ [ChainEv.createTmp e.browserTmp] ++
              [ChainEv.attempt "browser_cookiefile" (some e.browserTmp) false e.r3,
               ChainEv.unlink e.browserTmp]) := by
        simp [chainStep4, hb, hbe, h3]
      rw [hstep]
      exact chainStep5_unlink_mem e p _

/-- C8 amended: the browser-exported cookie file is deleted immediately
after its single attempt, but the environment-derived cookie file is
not deleted immediately after its attempt: it is kept for reuse by
strategy 5 and unlinked only on the paths that reach strategy 5; when
the chain succeeds at the env-cookie strategy it is never deleted. -/
theorem temp_cookie_cleanup_amended :
    (∀ e : ExtractEnv, browserNext (yt_extract_info e).events = true)
    ∧ (∀ (e : ExtractEnv) (p : String), e.envCookiePath = some p → e.r1.ok = false →
        (e.cookiefile = none ∨ e.r2.ok = false) → e.renv.ok = false →
        (e.tryBrowser && e.browserAvailable && e.browserExportOk && e.r3.ok) = false →
        ChainEv.unlink p ∈ (yt_extract_info e).events)
    ∧ (∀ (e : ExtractEnv) (p : String), e.envCookiePath = some p → e.r1.ok = false →
        (e.cookiefile = none ∨ e.r2.ok = false) → e.renv.ok = true →
        ChainEv.unlink p ∉ (yt_extract_info e).events) := by
  have hsafe1 : ∀ r : YdlResult, safeTrace [ChainEv.attempt "no_cookies" none false r] := by
    intro r
    constructor
    · rfl
    · intro ev hev
      simp at hev
      subst hev
      rfl
  refine ⟨?_, ?_, ?_⟩
  · intro e
    cases h1 : e.r1.ok with
    | true =>
      have hstep : (yt_extract_info e).events
          = [ChainEv.attempt "no_cookies" none false e.r1] := by
        simp [yt_extract_info, h1]
      rw [hstep]
      rfl
    | false =>
      have hstep : (yt_extract_info e).events
          = (chainStep2 e [ChainEv.attempt "no_cookies" none false e.r1]).events := by
        simp [yt_extract_info, h1]
      rw [hstep]
      exact chainStep2_bn e _ (hsafe1 e.r1)
  · intro e p hp h1 hcfr henv hb4
    have hstep2 : (yt_extract_info e).events
        = (chainStep2 e [ChainEv.attempt "no_cookies" none false e.r1]).events := by
      simp [yt_extract_info, h1]
    rcases hcfr with hcf | h2
    · have hstep3 : (chainStep2 e [ChainEv.attempt "no_cookies" none false e.r1]).events
          = (chainStep4 e (some p)
              ([ChainEv.attempt "no_cookies" none false e.r1] ++
               [ChainEv.createTmp p,
                ChainEv.attempt "env_cookiefile" (some p) false e.renv])).events := by
        simp [chainStep2, hcf, chainStep3, hp, henv]
      rw [hstep2, hstep3]
      exact chainStep4_unlink_mem e p _ hb4
    · cases hcf : e.cookiefile with
      | none =>
        have hstep3 : (chainStep2 e [ChainEv.attempt "no_cookies" none false e.r1]).events
            = (chainStep4 e (some p)
                ([ChainEv.attempt "no_cookies" none false e.r1] ++
                 [ChainEv.createTmp p,
                  ChainEv.attempt "env_cookiefile" (some p) false e.renv])).events := by
          simp [chainStep2, hcf, chainStep3, hp, henv]
        rw [hstep2, hstep3]
        exact chainStep4_unlink_mem e p _ hb4
      | some c =>
        have hstep3 : (chainStep2 e [ChainEv.attempt "no_cookies" none false e.r1]).events
            = (chainStep4 e (some p)
                ([ChainEv.attempt "no_cookies" none false e.r1] ++
                 [ChainEv.attempt "user_cookiefile" (some c) false e.r2] ++
                 [ChainEv.createTmp p,
                  ChainEv.attempt "env_cookiefile" (some p) false e.renv])).events := by
          simp [chainStep2, hcf, h2, chainStep3, hp, henv]
        rw [hstep2, hstep3]
        exact chainStep4_unlink_mem e p _ hb4
  · intro e p hp h1 hcfr henv
    have hstep2 : (yt_extract_info e).events
        = (chainStep2 e [ChainEv.attempt "no_cookies" none false e.r1]).events := by
      simp [yt_extract_info, h1]
    rcases hcfr with hcf | h2
    · have hstep3 : (chainStep2 e [ChainEv.attempt "no_cookies" none false e.r1]).events
          = [ChainEv.attempt "no_cookies" none false e.r1] ++
            [ChainEv.createTmp p,
             ChainEv.attempt "env_cookiefile" (some p) false e.renv] := by
        simp [chainStep2, hcf, chainStep3, hp, henv]
      rw [hstep2, hstep3]
      simp
    · cases hcf : e.cookiefile with
      | none =>
        have hstep3 : (chainStep2 e [ChainEv.attempt "no_cookies" none false e.r1]).events
            = [ChainEv.attempt "no_cookies" none false e.r1] ++
              [ChainEv.createTmp p,
               ChainEv.attempt "env_cookiefile" (some p) false e.renv] := by
          simp [chainStep2, hcf, chainStep3, hp, henv]
        rw [hstep2, hstep3]
        simp
      | some c =>
        have hstep3 : (chainStep2 e [ChainEv.attempt "no_cookies" none false e.r1]).events
            = [ChainEv.attempt "no_cookies" none false e.r1] ++
              [ChainEv.attempt "user_cookiefile" (some c) false e.r2] ++
              [ChainEv.createTmp p,
               ChainEv.attempt "env_cookiefile" (some p) false e.renv] := by
          simp [chainStep2, hcf, h2, chainStep3, hp, henv]
        rw [hstep2, hstep3]
        simp

def envC8w : ExtractEnv :=
  ⟨none, false, false, some "envck.txt", false, "btmp.txt",
   failAll2, failAll2, failAll2, failAll2, failAll2⟩

theorem temp_cookie_cleanup_amended_witness :
    ChainEv.unlink "envck.txt" ∈ (yt_extract_info envC8w).events
    ∧ ChainEv.unlink "envck.txt" ∉ (yt_extract_info envC8).events :=
  ⟨temp_cookie_cleanup_amended.2.1 envC8w "envck.txt" rfl rfl (Or.inl rfl) rfl rfl,
   temp_cookie_cleanup_amended.2.2 envC8 "envck.txt" rfl rfl (Or.inl rfl) rfl⟩

/-! ## C3: characterization of `is_quicktime_compatible` -/

lemma quicktime_some (cp : CodecPair) :
    is_quicktime_compatible (some cp) = true ↔
      (((cp.video.getD "").toLower = "" ∧ aacMp3Family ((cp.sound.getD "").toLower)) ∨
       (h264Family ((cp.video.getD "").toLower) ∧
         ((cp.sound.getD "").toLower = "" ∨ aacMp3Family ((cp.sound.getD "").toLower)))) := by
  have e1 : strContains "" "h264" = false := by decide
  have e2 : strContains "" "avc1" = false := by decide
  have e3 : strContains "" "avc" = false := by decide
  simp only [is_quicktime_compatible, aacMp3Family, h264Family]
  split_ifs with h1 h2 h3 h4 h5 <;> simp_all [Bool.or_eq_true] <;> tauto

/-- C3: the compatibility predicate returns `true` iff either the video
stream is absent and the audio codec is in the AAC family (aac/mp4a) or
MP3, or the video codec is in the H.264/AVC family and the audio stream
is absent or in the AAC/MP3 family; every other combination, including
an absent/inconclusive probe result (`none`), yields `false`. -/
theorem quicktime_compat_characterization :
    ∀ c : Option CodecPair, is_quicktime_compatible c = true ↔
      (∃ cp, c = some cp ∧
        (((cp.video.getD "").toLower = "" ∧ aacMp3Family ((cp.sound.getD "").toLower)) ∨
         (h264Family ((cp.video.getD "").toLower) ∧
           ((cp.sound.getD "").toLower = "" ∨ aacMp3Family ((cp.sound.getD "").toLower))))) := by
  intro c
  cases c with
  | none => simp [is_quicktime_compatible]
  | some cp =>
    rw [quicktime_some]
    constructor
    · intro h
      exact ⟨cp, rfl, h⟩
    · rintro ⟨cp', heq, hp⟩
      cases heq
      exact hp

/-! ## Download worker (app.py lines 692-822) and progress hook (698-718)

The worker is modelled as the event trace it emits, driven by an oracle
`WorkerEnv` fixing the outcome of each `attempt_download` call and the
progress-hook events yt-dlp fires during it. -/

inductive HookEv where
  | downloading (total : Option Nat) (downloaded : Nat)
  | finished
deriving DecidableEq, Repr

/-- Percentage computed by `progress_hook` for a "downloading" event
(lines 701-708): `int(downloaded * 100 / total)` when a positive total
is known, else `min(int(downloaded / 1024), 99)`. -/
def hookPct (total : Option Nat) (downloaded : Nat) : Nat :=
  match total with
  | some t => if 0 < t then downloaded * 100 / t else min (downloaded / 1024) 99
  | none => min (downloaded / 1024) 99

structure AttemptOutcome where
  hooks : List HookEv
  res : Except String Unit
deriving Repr

structure WorkerEnv where
  /-- `fmt_to_use` resolved by `download_route` (lines 663-690) -/
  fmtStr : Option String
  /-- the cookiefile passed to the worker -/
  cookiefile : Option String
  tryBrowser : Bool
  browserAvailable : Bool
  browserExportOk : Bool
  browserTmp : String
  /-- outcome of the requested-format attempt -/
  aFmt : AttemptOutcome
  /-- outcome of the browser-cookie-gated attempt -/
  aBrowser : AttemptOutcome
  /-- outcome of the default best-merge attempt -/
  aDefault : AttemptOutcome
  /-- outcome of the final "best" fallback attempt -/
  aBest : AttemptOutcome
deriving Repr

inductive WEv where
  | setStatus (s : Status)
  | setProgress (pct : Nat)
  | setLastError (e : String)
  /-- an `attempt_download` call: the format override and the cookiefile
  put into the yt-dlp options -/
  | download (fmt : Option String) (ck : Option String)
  | logMsg (m : String)
deriving DecidableEq, Repr

/-- Task-record writes performed by `progress_hook` for one event. -/
def hookEvs : HookEv → List WEv
  | HookEv.downloading total dl => [WEv.setProgress (hookPct total dl)]
  | HookEv.finished => [WEv.setProgress 100, WEv.setStatus Status.processing]

def hooksEvs : List HookEv → List WEv
  | [] => []
  | h :: t => hookEvs h ++ hooksEvs t

/-- Events of one `attempt_download` call (lines 727-753): the yt-dlp
download fires its hook events; on success the worker then sets
`status=done, progress=100%` (line 747-751); on failure the exception
propagates to the caller with no status write. -/
def attemptEvs (fmt ck : Option String) (o : AttemptOutcome) : List WEv :=
  WEv.download fmt ck :: hooksEvs o.hooks ++
    (match o.res with
     | Except.ok _ => [WEv.setStatus Status.done, WEv.setProgress 100]
     | Except.error _ => [])

/-- Attempts (c) and (d): default best merge (lines 789-796) and final
"best" fallback (798-806); only exhaustion of the ladder writes
`status=error`. -/
def afterBrowserEvs (e : WorkerEnv) : List WEv :=
  WEv.logMsg "Trying default best merge (video+audio)" ::
    attemptEvs none e.cookiefile e.aDefault ++
    (match e.aDefault.res with
     | Except.ok _ => []
     | Except.error m =>
       WEv.setLastError m :: WEv.logMsg ("Default attempt failed: " ++ m) ::
       WEv.logMsg "Trying fallback 'best' single-file" ::
         attemptEvs (some "best") e.cookiefile e.aBest ++
         (match e.aBest.res with
          | Except.ok _ => []
          | Except.error m2 =>
            [WEv.setStatus Status.error, WEv.logMsg ("Final fallback failed: " ++ m2)]))

/-- Attempt (b), lines 766-787: gated on the browser-cookie opt-in,
availability and a successful export — but the download options are
built from the *caller* cookiefile (`attempt_download(None, audio_conv)`
with the closed-over `cookiefile`); the exported browser cookie file is
never referenced, contrary to the inline comment "prefer browser
cookiefile for this attempt". -/
def afterFmtEvs (e : WorkerEnv) : List WEv :=
  if e.tryBrowser && e.browserAvailable then
    if e.browserExportOk then
      WEv.logMsg "Trying with local browser cookies" ::
        attemptEvs none e.cookiefile e.aBrowser ++
        (match e.aBrowser.res with
         | Except.ok _ => []
         | Except.error m =>
           WEv.setLastError m :: WEv.logMsg ("Browser-cookie retry failed: " ++ m) ::
             afterBrowserEvs e)
    else afterBrowserEvs e
  else afterBrowserEvs e

/-- The worker body (lines 720-806): set `running`, then attempt ladder
(a) requested format, (b) browser-gated retry, (c) default merge,
(d) "best" fallback. -/
def workerEvents (e : WorkerEnv) : List WEv :=
  WEv.setStatus Status.running :: WEv.logMsg "Task started" ::
    (match e.fmtStr with
     | none => afterFmtEvs e
     | some f =>
       WEv.logMsg ("Trying requested format: " ++ f) ::
         attemptEvs (some f) e.cookiefile e.aFmt ++
         (match e.aFmt.res with
          | Except.ok _ => []
          | Except.error m =>
            WEv.setLastError m :: WEv.logMsg ("Requested format failed: " ++ m) ::
              afterFmtEvs e))

/-! ### Views of the worker trace -/

def statusWrites : List WEv → List Status
  | [] => []
  | WEv.setStatus s :: r => s :: statusWrites r
  | WEv.setProgress _ :: r => statusWrites r
  | WEv.setLastError _ :: r => statusWrites r
  | WEv.download _ _ :: r => statusWrites r
  | WEv.logMsg _ :: r => statusWrites r

def wAttempts : List WEv → List (Option String × Option String)
  | [] => []
  | WEv.download f ck :: r => (f, ck) :: wAttempts r
  | _ :: r => wAttempts r

@[simp]
lemma statusWrites_nil : statusWrites [] = [] := rfl

@[simp]
lemma statusWrites_cons_status (s : Status) (r : List WEv) :
    statusWrites (WEv.setStatus s :: r) = s :: statusWrites r := rfl

@[simp]
lemma statusWrites_cons_progress (p : Nat) (r : List WEv) :
    statusWrites (WEv.setProgress p :: r) = statusWrites r := rfl

@[simp]
lemma statusWrites_cons_lastError (m : String) (r : List WEv) :
    statusWrites (WEv.setLastError m :: r) = statusWrites r := rfl

@[simp]
lemma statusWrites_cons_download (f ck : Option String) (r : List WEv) :
    statusWrites (WEv.download f ck :: r) = statusWrites r := rfl

@[simp]
lemma statusWrites_cons_log (m : String) (r : List WEv) :
    statusWrites (WEv.logMsg m :: r) = statusWrites r := rfl

@[simp]
lemma statusWrites_append (l1 l2 : List WEv) :
    statusWrites (l1 ++ l2) = statusWrites l1 ++ statusWrites l2 := by
  induction l1 with
  | nil => rfl
  | cons ev r ih => cases ev <;> simp [ih]

/-- The worker's own status-write sequence: some number of `processing`
writes (from "finished" hook events) followed by exactly one terminal
write. -/
def WShape (l : List Status) : Prop :=
  ∃ ps t, l = ps ++ [t] ∧ (∀ s ∈ ps, s = Status.processing)
    ∧ (t = Status.done ∨ t = Status.error)

lemma statusWrites_hooksEvs (hs : List HookEv) :
    ∀ s ∈ statusWrites (hooksEvs hs), s = Status.processing := by
  induction hs with
  | nil => simp [hooksEvs]
  | cons h t ih =>
    cases h with
    | downloading total dl => simpa [hooksEvs, hookEvs] using ih
    | finished =>
      intro s hs
      simp [hooksEvs, hookEvs] at hs
      rcases hs with h | h
      · exact h
      · exact ih s h

lemma statusWrites_attemptEvs (fmt ck : Option String) (o : AttemptOutcome) :
    statusWrites (attemptEvs fmt ck o)
      = statusWrites (hooksEvs o.hooks) ++
        (match o.res with
         | Except.ok _ => [Status.done]
         | Except.error _ => []) := by
  cases hr : o.res <;> simp [attemptEvs, hr]

lemma WShape_done_of (ps : List Status) (hps : ∀ s ∈ ps, s = Status.processing) :
    WShape (ps ++ [Status.done]) := ⟨ps, Status.done, rfl, hps, Or.inl rfl⟩

lemma WShape_error_of (ps : List Status) (hps : ∀ s ∈ ps, s = Status.processing) :
    WShape (ps ++ [Status.error]) := ⟨ps, Status.error, rfl, hps, Or.inr rfl⟩

lemma WShape_prefix (ps l : List Status) (hps : ∀ s ∈ ps, s = Status.processing)
    (h : WShape l) : WShape (ps ++ l) := by
  obtain ⟨ps2, t, heq, h2, h3⟩ := h
  refine ⟨ps ++ ps2, t, by rw [heq, List.append_assoc], ?_, h3⟩
  intro s hs
  rcases List.mem_append.mp hs with h | h
  · exact hps s h
  · exact h2 s h

lemma shape_afterBrowser (e : WorkerEnv) : WShape (statusWrites (afterBrowserEvs e)) := by
  cases hd : e.aDefault.res with
  | ok u =>
    have h : statusWrites (afterBrowserEvs e)
        = statusWrites (hooksEvs e.aDefault.hooks) ++ [Status.done] := by
      simp [afterBrowserEvs, hd, statusWrites_attemptEvs]
    rw [h]
    exact WShape_done_of _ (statusWrites_hooksEvs _)
  | error m =>
    cases hb : e.aBest.res with
    | ok u =>
      have h : statusWrites (afterBrowserEvs e)
          = statusWrites (hooksEvs e.aDefault.hooks) ++
            (statusWrites (hooksEvs e.aBest.hooks) ++ [Status.done]) := by
        simp [afterBrowserEvs, hd, hb, statusWrites_attemptEvs]
      rw [h]
      exact WShape_prefix _ _ (statusWrites_hooksEvs _)
        (WShape_done_of _ (statusWrites_hooksEvs _))
    | error m2 =>
      have h : statusWrites (afterBrowserEvs e)
          = statusWrites (hooksEvs e.aDefault.hooks) ++
            (statusWrites (hooksEvs e.aBest.hooks) ++ [Status.error]) := by
        simp [afterBrowserEvs, hd, hb, statusWrites_attemptEvs]
      rw [h]
      exact WShape_prefix _ _ (statusWrites_hooksEvs _)
        (WShape_error_of _ (statusWrites_hooksEvs _))

lemma shape_afterFmt (e : WorkerEnv) : WShape (statusWrites (afterFmtEvs e)) := by
  cases hba : (e.tryBrowser && e.browserAvailable) with
  | false =>
    have h : afterFmtEvs e = afterBrowserEvs e := by simp [afterFmtEvs, hba]
    rw [h]
    exact shape_afterBrowser e
  | true =>
    cases hbe : e.browserExportOk with
    | false =>
      have h : afterFmtEvs e = afterBrowserEvs e := by simp [afterFmtEvs, hba, hbe]
      rw [h]
      exact shape_afterBrowser e
    | true =>
      cases hbr : e.aBrowser.res with
      | ok u =>
        have h : statusWrites (afterFmtEvs e)
            = statusWrites (hooksEvs e.aBrowser.hooks) ++ [Status.done] := by
          simp [afterFmtEvs, hba, hbe, hbr, statusWrites_attemptEvs]
        rw [h]
        exact WShape_done_of _ (statusWrites_hooksEvs _)
      | error m =>
        have h : statusWrites (afterFmtEvs e)
            = statusWrites (hooksEvs e.aBrowser.hooks) ++ statusWrites (afterBrowserEvs e) := by
          simp [afterFmtEvs, hba, hbe, hbr, statusWrites_attemptEvs]
        rw [h]
        exact WShape_prefix _ _ (statusWrites_hooksEvs _) (shape_afterBrowser e)

lemma shape_worker (e : WorkerEnv) :
    ∃ rest, statusWrites (workerEvents e) = Status.running :: rest ∧ WShape rest := by
  cases hf : e.fmtStr with
  | none =>
    refine ⟨statusWrites (afterFmtEvs e), ?_, shape_afterFmt e⟩
    simp [workerEvents, hf]
  | some f =>
    cases hr : e.aFmt.res with
    | ok u =>
      refine ⟨statusWrites (hooksEvs e.aFmt.hooks) ++ [Status.done], ?_,
        WShape_done_of _ (statusWrites_hooksEvs _)⟩
      simp [workerEvents, hf, hr, statusWrites_attemptEvs]
    | error m =>
      refine ⟨statusWrites (hooksEvs e.aFmt.hooks) ++ statusWrites (afterFmtEvs e), ?_,
        WShape_prefix _ _ (statusWrites_hooksEvs _) (shape_afterFmt e)⟩
      simp [workerEvents, hf, hr, statusWrites_attemptEvs]

/-! ## C1: the worker / stall-monitor status machine

The task record's status field is shared between the worker thread and
the monitor thread.  The monitor loop (lines 825-843) reads the status,
returns when it is terminal, and otherwise — when the staleness
comparison fires — updates it to `error` in a separate step; nothing
re-checks the status between the read and the write, and the worker
never checks the status at all before writing.  The clock is abstracted
by letting the staleness comparison go either way (any elapsed time is
realizable).  The worker's remaining writes are `wrem`. -/

inductive MPhase where
  | idle
  | checked (ob : Status)
  | stopped
deriving DecidableEq, Repr

structure Sys where
  st : Status
  wrem : List Status
  mph : MPhase
deriving DecidableEq, Repr

/-- `status in ("done", "error")` (line 831). -/
def terminalB (s : Status) : Bool := s == Status.done || s == Status.error

inductive SysStep : Sys → Sys → Prop where
  /-- the worker performs its next status write (no read-back) -/
  | wwrite (s : Status) (rest : List Status) (st : Status) (m : MPhase) :
      SysStep ⟨st, s :: rest, m⟩ ⟨s, rest, m⟩
  /-- the monitor reads a terminal status and returns (lines 830-832) -/
  | mreadTerm (st : Status) (w : List Status) (h : terminalB st = true) :
      SysStep ⟨st, w, MPhase.idle⟩ ⟨st, w, MPhase.stopped⟩
  /-- the monitor reads a non-terminal status, the staleness comparison
  fires (line 839), and it is now committed to writing `error` -/
  | mreadStale (st : Status) (w : List Status) (h : terminalB st = false) :
      SysStep ⟨st, w, MPhase.idle⟩ ⟨st, w, MPhase.checked st⟩
  /-- the monitor's error write (line 840), not atomic with its read -/
  | mwrite (st : Status) (w : List Status) (ob : Status) :
      SysStep ⟨st, w, MPhase.checked ob⟩ ⟨Status.error, w, MPhase.stopped⟩

inductive Reach (s0 : Sys) : Sys → Prop where
  | refl : Reach s0 s0
  | step {s s' : Sys} : Reach s0 s → SysStep s s' → Reach s0 s'

/-- The record is created `queued` (line 694) before worker and monitor
start. -/
def initSys (e : WorkerEnv) : Sys :=
  ⟨Status.queued, statusWrites (workerEvents e), MPhase.idle⟩

lemma checked_nonterminal (e : WorkerEnv) :
    ∀ s : Sys, Reach (initSys e) s →
      ∀ ob, s.mph = MPhase.checked ob → terminalB ob = false := by
  intro s hr
  induction hr with
  | refl =>
    intro ob hob
    simp [initSys] at hob
  | step hr' hstep ih =>
    intro ob hob
    cases hstep with
    | wwrite s2 rest st m => exact ih ob hob
    | mreadTerm st w h => simp at hob
    | mreadStale st w h =>
      simp only [MPhase.checked.injEq] at hob
      rw [← hob]
      exact h
    | mwrite st w ob2 => simp at hob

lemma done_only_by_worker (s s' : Sys) (hstep : SysStep s s')
    (hdone : s'.st = Status.done) (hne : s.st ≠ Status.done) :
    s.wrem = Status.done :: s'.wrem := by
  cases hstep with
  | wwrite s2 rest st m =>
    simp only at hdone ⊢
    rw [hdone]
  | mreadTerm st w h => exact absurd hdone hne
  | mreadStale st w h => exact absurd hdone hne
  | mwrite st w ob => simp at hdone

/-- A worker run whose single (default) attempt succeeds after one
"finished" hook event: its status writes are
`[running, processing, done]`. -/
def envC1 : WorkerEnv :=
  ⟨none, none, false, false, false, "btmp.txt",
   ⟨[], Except.error "unused"⟩, ⟨[], Except.error "unused"⟩,
   ⟨[HookEv.finished], Except.ok ()⟩, ⟨[], Except.error "unused"⟩⟩

/-- C1 counterexample: `done` is not terminal.  The monitor reads
`processing` (non-terminal) and finds it stale; before its error write
lands, the worker finishes and writes `done`; the monitor then
overwrites `done` with `error`.  This interleaving is a valid execution
of the embedded system, refuting "no write ever changes a status that
is already done" and "the Stall Monitor never sets error after the
Worker has already set a terminal status". -/
theorem task_status_terminality_refuted :
    ¬ (∀ s s' : Sys, Reach (initSys envC1) s → SysStep s s' →
        s.st = Status.done → s'.st = Status.done) := by
  intro h
  have r1 : Reach (initSys envC1)
      ⟨Status.done, [], MPhase.checked Status.processing⟩ :=
    Reach.step
      (Reach.step
        (Reach.step
          (Reach.step Reach.refl
            (SysStep.wwrite Status.running [Status.processing, Status.done]
              Status.queued MPhase.idle))
          (SysStep.wwrite Status.processing [Status.done] Status.running MPhase.idle))
        (SysStep.mreadStale Status.processing [Status.done] rfl))
      (SysStep.wwrite Status.done [] Status.processing (MPhase.checked Status.processing))
  have hbad := h ⟨Status.done, [], MPhase.checked Status.processing⟩
    ⟨Status.error, [], MPhase.stopped⟩ r1
    (SysStep.mwrite Status.done [] Status.processing) rfl
  exact absurd hbad (by decide)

/-- C1 amended: (i) the worker's own status-write sequence is always
`running` followed by some `processing` writes and exactly one terminal
write (`done` or `error`); (ii) in every reachable system state the
monitor is committed to an error write only after having read a
non-terminal status; (iii) only a worker write can make the status
`done`.  Because neither thread re-checks the status at write time, the
monitor can still overwrite a `done` that landed between its read and
its write (and the worker can overwrite a monitor-set `error`). -/
theorem task_status_machine_amended :
    (∀ e : WorkerEnv, ∃ rest, statusWrites (workerEvents e) = Status.running :: rest
       ∧ WShape rest)
    ∧ (∀ (e : WorkerEnv) (s : Sys), Reach (initSys e) s →
        ∀ ob, s.mph = MPhase.checked ob → terminalB ob = false)
    ∧ (∀ s s' : Sys, SysStep s s' → s'.st = Status.done → s.st ≠ Status.done →
        s.wrem = Status.done :: s'.wrem) :=
  ⟨shape_worker, checked_nonterminal, done_only_by_worker⟩

theorem task_status_machine_amended_witness :
    terminalB Status.processing = false
    ∧ [Status.done] = Status.done :: ([] : List Status) := by
  constructor
  · exact task_status_machine_amended.2.1 envC1
      ⟨Status.processing, [Status.done], MPhase.checked Status.processing⟩
      (Reach.step
        (Reach.step
          (Reach.step Reach.refl
            (SysStep.wwrite Status.running [Status.processing, Status.done]
              Status.queued MPhase.idle))
          (SysStep.wwrite Status.processing [Status.done] Status.running MPhase.idle))
        (SysStep.mreadStale Status.processing [Status.done] rfl))
      Status.processing rfl
  · exact task_status_machine_amended.2.2
      ⟨Status.running, [Status.done], MPhase.idle⟩
      ⟨Status.done, [], MPhase.idle⟩
      (SysStep.wwrite Status.done [] Status.running MPhase.idle)
      rfl (by decide)

/-! ## C4: the worker attempt ladder and the browser-credential slip -/

/-- The failing input for C4: browser cookies opted in, capability
available, export succeeds, a caller cookiefile present, every attempt
failing. -/
def envC4 : WorkerEnv :=
  ⟨some "137", some "user_cookies.txt", true, true, true, "browser_tmp.txt",
   ⟨[], Except.error "requested format failed"⟩,
   ⟨[], Except.error "browser retry failed"⟩,
   ⟨[], Except.error "default failed"⟩,
   ⟨[], Except.error "best failed"⟩⟩

/-- C4: at the failing input the worker tries, in order, the requested
format, the browser-gated retry, the default merge and the "best"
fallback — but the browser-gated attempt (second entry) runs with the
*caller's* cookiefile; the exported browser cookie file never appears
in any attempt's options, contradicting the claim (and the code's own
comment "prefer browser cookiefile for this attempt").  `error` status
is written only after all four attempts failed. -/
theorem worker_attempt_ladder_bug :
    wAttempts (workerEvents envC4) =
      [(some "137", some "user_cookies.txt"),
       (none, some "user_cookies.txt"),
       (none, some "user_cookies.txt"),
       (some "best", some "user_cookies.txt")]
    ∧ (wAttempts (workerEvents envC4)).all
        (fun pr => !(pr.2 == some "browser_tmp.txt")) = true
    ∧ statusWrites (workerEvents envC4) = [Status.running, Status.error] :=
  ⟨by decide, by decide, by decide⟩

/-! ## C9: progress monotonicity while running -/

/-- Progress values written while the tracked status is `running`
(the record is created with status `queued`, progress "0%"). -/
def progWhileRunning : Status → List WEv → List Nat
  | _, [] => []
  | _, WEv.setStatus s :: r => progWhileRunning s r
  | st, WEv.setProgress p :: r =>
    if st = Status.running then p :: progWhileRunning st r else progWhileRunning st r
  | st, WEv.setLastError _ :: r => progWhileRunning st r
  | st, WEv.download _ _ :: r => progWhileRunning st r
  | st, WEv.logMsg _ :: r => progWhileRunning st r

def nonDecB : List Nat → Bool
  | [] => true
  | [_] => true
  | a :: b :: r => decide (a ≤ b) && nonDecB (b :: r)

/-- The claim as stated: the progress percentages written while the
task is running never decrease. -/
def progressMonotoneWhileRunning (e : WorkerEnv) : Prop :=
  nonDecB (progWhileRunning Status.queued (workerEvents e)) = true

/-- C9 counterexample input: the requested-format attempt reaches 50%
(downloaded 500 of 1000) and then fails without a "finished" event; the
default attempt restarts and reports 10%.  Both writes happen while the
status is `running`. -/
def envC9 : WorkerEnv :=
  ⟨some "137", none, false, false, false, "btmp.txt",
   ⟨[HookEv.downloading (some 1000) 500], Except.error "fragment error"⟩,
   ⟨[], Except.error "unused"⟩,
   ⟨[HookEv.downloading (some 1000) 100], Except.ok ()⟩,
   ⟨[], Except.error "unused"⟩⟩

/-- C9 counterexample: the progress sequence written while running is
`[50, 10]` — a decrease. -/
theorem progress_monotonicity_refuted : ¬ progressMonotoneWhileRunning envC9 := by
  unfold progressMonotoneWhileRunning
  decide

/-- C9 amended: the stored progress is recomputed from each hook event
independently and is not forced to be monotone (a retry or a changed
total can lower it); but for a fixed total field — known-positive or
unknown — the computed percentage is monotone in the downloaded byte
count, so within a single attempt with non-decreasing `downloaded_bytes`
and stable `total_bytes` the stored percentage never decreases. -/
theorem hook_pct_monotone (total : Option Nat) (d1 d2 : Nat) (h : d1 ≤ d2) :
    hookPct total d1 ≤ hookPct total d2 := by
  cases total with
  | none => exact min_le_min (Nat.div_le_div_right h) le_rfl
  | some t =>
    by_cases ht : 0 < t
    · simp only [hookPct, ht, if_true]
      exact Nat.div_le_div_right (Nat.mul_le_mul_right _ h)
    · simp only [hookPct, ht, if_false]
      exact min_le_min (Nat.div_le_div_right h) le_rfl

theorem hook_pct_monotone_witness : hookPct (some 1000) 100 ≤ hookPct (some 1000) 500 :=
  hook_pct_monotone (some 1000) 100 500 (by decide)

/-! ## C6: `remux_or_encode` (app.py lines 151-246)

Modelled over the three paths it can touch: the source file, the remux
output `outname`, and the encode output `enc_out` (the
collision-avoidance loops at lines 170-173 and 208-211 guarantee the
outputs are fresh distinct paths).  `RemuxEnv` fixes the outcome of
every external call. -/

inductive RFile where
  | src
  | rem
  | enc
deriving DecidableEq, Repr

structure FS where
  src : Bool
  rem : Bool
  enc : Bool
deriving DecidableEq, Repr

structure RemuxEnv where
  /-- `src_path` exists at entry -/
  srcExists : Bool
  /-- `cur_ext == desired_ext` -/
  curExtIsDesired : Bool
  /-- the probe of the source is conclusive and QuickTime-compatible -/
  srcProbeCompatible : Bool
  /-- `ffmpeg -version` exits 0 -/
  ffmpegOk : Bool
  /-- the remux invocation exits 0 -/
  remuxRC0 : Bool
  /-- `outname.exists()` after the remux attempt -/
  remuxCreates : Bool
  /-- the probe of the remuxed file is conclusive and compatible -/
  remuxProbeCompatible : Bool
  /-- the `reencode_on_fail` argument -/
  reencodeOnFail : Bool
  /-- the transcode invocation exits 0 -/
  encodeRC0 : Bool
  /-- `enc_out.exists()` after the transcode attempt -/
  encodeCreates : Bool
  /-- `src_path.unlink()` succeeds (exceptions are swallowed) -/
  unlinkSrcOk : Bool
  /-- `outname.unlink()` succeeds -/
  unlinkRemOk : Bool
deriving DecidableEq, Repr

def fsHas (fs : FS) : RFile → Bool
  | RFile.src => fs.src
  | RFile.rem => fs.rem
  | RFile.enc => fs.enc

/-- `remux_or_encode`: returns the chosen file and the final on-disk
state of the three paths. -/
def remux_or_encode (e : RemuxEnv) : RFile × FS :=
  let fs0 : FS := ⟨e.srcExists, false, false⟩
  if e.curExtIsDesired && e.srcProbeCompatible then (RFile.src, fs0)
  else if !e.ffmpegOk then (RFile.src, fs0)
  else
    let fs1 : FS := ⟨fs0.src, e.remuxCreates, false⟩
    if e.remuxRC0 && e.remuxCreates && e.remuxProbeCompatible then
      (RFile.rem, ⟨fs1.src && !e.unlinkSrcOk, fs1.rem, false⟩)
    else if !e.reencodeOnFail then
      (if fs1.rem then RFile.rem else RFile.src, fs1)
    else
      let fs2 : FS := ⟨fs1.src, fs1.rem, e.encodeCreates⟩
      if e.encodeRC0 && e.encodeCreates then
        (RFile.enc, ⟨fs2.src && !e.unlinkSrcOk, fs2.rem && !e.unlinkRemOk, fs2.enc⟩)
      else (if fs2.rem then RFile.rem else RFile.src, fs2)

/-- C6: when the source file exists at entry, the resolver always
returns a path that exists on disk at exit; when the encoding tool is
unavailable it returns the original source; the transcoded file is
returned only when the transcode actually succeeded; and when every
remux/transcode attempt fails it returns the remux artifact if one
exists on disk, else the original source (priority
transcoded > remuxed > original). -/
theorem remux_never_fails (e : RemuxEnv) (hsrc : e.srcExists = true) :
    fsHas (remux_or_encode e).2 (remux_or_encode e).1 = true
    ∧ ((e.curExtIsDesired && e.srcProbeCompatible) = false → e.ffmpegOk = false →
        (remux_or_encode e).1 = RFile.src)
    ∧ ((remux_or_encode e).1 = RFile.enc → (e.encodeRC0 && e.encodeCreates) = true)
    ∧ ((e.curExtIsDesired && e.srcProbeCompatible) = false → e.ffmpegOk = true →
        (e.remuxRC0 && e.remuxCreates && e.remuxProbeCompatible) = false →
        e.reencodeOnFail = true → (e.encodeRC0 && e.encodeCreates) = false →
        (remux_or_encode e).1 = (if e.remuxCreates then RFile.rem else RFile.src)) := by
  obtain ⟨s, c, p1, f, r0, rc, p2, re, e0, ec, u1, u2⟩ := e
  simp only at hsrc
  subst hsrc
  revert c p1 f r0 rc p2 re e0 ec u1 u2
  decide

/-- An input where the encoding tool is unavailable. -/
def envC6 : RemuxEnv :=
  ⟨true, false, false, false, false, false, false, true, false, false, true, true⟩

theorem remux_never_fails_witness :
    fsHas (remux_or_encode envC6).2 (remux_or_encode envC6).1 = true
    ∧ (remux_or_encode envC6).1 = RFile.src :=
  ⟨(remux_never_fails envC6 rfl).1, (remux_never_fails envC6 rfl).2.1 rfl rfl⟩

/-! ## C10: the stall monitor's per-poll decision (lines 825-843) -/

structure MonView where
  status : Status
  lastProgressTime : Option Int
  created : Int
deriving Repr

inductive MonAct where
  | stop
  | fire (st : Status) (err : String)
  | keep
deriving DecidableEq, Repr

/-- Phase-dependent timeout (lines 834-838): 900 s while `processing`,
180 s otherwise. -/
def monTimeoutFor (s : Status) : Int := if s = Status.processing then 900 else 180

/-- One iteration of the monitor loop: return on terminal status
(lines 830-832); otherwise compute staleness from `last_progress_time`,
defaulting to `created` (line 833), and fire the stall error when the
phase timeout is exceeded (lines 839-842); else sleep and poll again. -/
def monitorPoll (v : MonView) (now : Int) : MonAct :=
  if v.status = Status.done ∨ v.status = Status.error then MonAct.stop
  else if now - (v.lastProgressTime.getD v.created) > monTimeoutFor v.status then
    MonAct.fire Status.error "stalled_download_timeout"
  else MonAct.keep

/-- C10: a poll fires exactly on a non-terminal status whose elapsed
time since `last_progress_time` (defaulting to the creation time)
exceeds the phase timeout; what it fires is always
`status=error, error="stalled_download_timeout"`; the timeout is 900 s
in `processing` and 180 s in every other phase; so a queued task with
no recorded progress event is marked error once more than 180 s have
passed since creation. -/
theorem monitor_stall_decision (v : MonView) (now : Int) :
    ((∃ st er, monitorPoll v now = MonAct.fire st er) ↔
      (v.status ≠ Status.done ∧ v.status ≠ Status.error
        ∧ now - (v.lastProgressTime.getD v.created) > monTimeoutFor v.status))
    ∧ (∀ st er, monitorPoll v now = MonAct.fire st er →
        st = Status.error ∧ er = "stalled_download_timeout")
    ∧ monTimeoutFor Status.processing = 900
    ∧ (∀ s, s ≠ Status.processing → monTimeoutFor s = 180)
    ∧ (v.status = Status.queued → v.lastProgressTime = none → now - v.created > 180 →
        monitorPoll v now = MonAct.fire Status.error "stalled_download_timeout") := by
  refine ⟨⟨?_, ?_⟩, ?_, rfl, ?_, ?_⟩
  · rintro ⟨st, er, hf⟩
    unfold monitorPoll at hf
    by_cases h1 : v.status = Status.done ∨ v.status = Status.error
    · rw [if_pos h1] at hf
      exact absurd hf (by simp)
    · by_cases h2 : now - (v.lastProgressTime.getD v.created) > monTimeoutFor v.status
      · push_neg at h1
        exact ⟨h1.1, h1.2, h2⟩
      · rw [if_neg h1, if_neg h2] at hf
        exact absurd hf (by simp)
  · rintro ⟨hd, he, hgt⟩
    refine ⟨Status.error, "stalled_download_timeout", ?_⟩
    unfold monitorPoll
    rw [if_neg (by tauto), if_pos hgt]
  · intro st er hf
    unfold monitorPoll at hf
    by_cases h1 : v.status = Status.done ∨ v.status = Status.error
    · rw [if_pos h1] at hf
      exact absurd hf (by simp)
    · by_cases h2 : now - (v.lastProgressTime.getD v.created) > monTimeoutFor v.status
      · rw [if_neg h1, if_pos h2] at hf
        simp only [MonAct.fire.injEq] at hf
        exact ⟨hf.1.symm, hf.2.symm⟩
      · rw [if_neg h1, if_neg h2] at hf
        exact absurd hf (by simp)
  · intro s hs
    simp [monTimeoutFor, hs]
  · intro hq hnone hgt
    unfold monitorPoll
    rw [if_neg (by simp [hq]), if_pos ?hcond]
    case hcond =>
      rw [hnone]
      simpa [monTimeoutFor, hq] using hgt

theorem monitor_stall_decision_witness :
    monitorPoll ⟨Status.queued, none, 0⟩ 200
      = MonAct.fire Status.error "stalled_download_timeout" :=
  (monitor_stall_decision ⟨Status.queued, none, 0⟩ 200).2.2.2.2 rfl rfl (by decide)

end SocialDL
